import Mathlib

/-!
Shallow embedding of the `tw_keypair` private-key abstraction and the
STARK signature codec from `gemwalletcom/wallet-core`
(`src/rust/tw_keypair/src/tw/private.rs` and
`src/rust/tw_keypair/src/starkex/signature.rs`), with theorems settling
the specification claims.

Rust panics (`assert!`, `.expect`) are modelled by returning `none` from
an `Option`-valued embedding; fallible Rust functions returning
`Result<T, Error>` are modelled with `Except Error T`.
-/

namespace WalletCore

/-- A byte, as stored in a Rust `Vec<u8>` or `[u8]` slice. -/
abbrev Byte := Fin 256

/-- A byte buffer (`Vec<u8>` / `&[u8]`). -/
abbrev Bytes := List Byte

/-- The error kinds of the `tw_keypair` crate used by this excerpt
(`Error::InvalidSecretKey`, `Error::InvalidSignMessage`, `Error::InvalidSignature`). -/
inductive Error where
  | InvalidSecretKey
  | InvalidSignMessage
  | InvalidSignature
deriving DecidableEq, Repr

/-- Returns `true` exactly on the `Ok` constructor of a Rust `Result` (`Result::is_ok`). -/
def exceptIsOk {α : Type} : Except Error α → Bool
  | .ok _ => true
  | .error _ => false

/-- The big-endian integer value of a byte buffer. -/
def bytesToNatBE (bs : Bytes) : Nat :=
  bs.foldl (fun acc b => acc * 256 + b.val) 0

/-- Fixed-width big-endian encoding of a natural number: `len` bytes,
most significant byte first (the value is taken modulo `256 ^ len`). -/
def natToBytesBE : Nat → Nat → Bytes
  | 0, _ => []
  | len + 1, n =>
      natToBytesBE len (n / 256) ++ [⟨n % 256, Nat.mod_lt n (by decide)⟩]

theorem length_natToBytesBE (len n : Nat) : (natToBytesBE len n).length = len := by
  induction len generalizing n with
  | zero => simp [natToBytesBE]
  | succ l ih => simp [natToBytesBE, ih]

theorem bytesToNatBE_foldl (bs : Bytes) (acc : Nat) :
    bs.foldl (fun a b => a * 256 + b.val) acc = acc * 256 ^ bs.length + bytesToNatBE bs := by
  induction bs generalizing acc with
  | nil => simp [bytesToNatBE]
  | cons b bs ih =>
    simp only [List.foldl_cons, List.length_cons, bytesToNatBE]
    rw [ih (acc * 256 + b.val), ih (0 * 256 + b.val)]
    ring

theorem bytesToNatBE_append_singleton (bs : Bytes) (b : Byte) :
    bytesToNatBE (bs ++ [b]) = bytesToNatBE bs * 256 + b.val := by
  unfold bytesToNatBE
  rw [List.foldl_append]
  simp only [List.foldl_cons, List.foldl_nil]

theorem bytesToNatBE_lt (bs : Bytes) : bytesToNatBE bs < 256 ^ bs.length := by
  induction bs using List.reverseRecOn with
  | nil => simp [bytesToNatBE]
  | append_singleton bs b ih =>
    rw [bytesToNatBE_append_singleton]
    simp only [List.length_append, List.length_singleton]
    have hb : b.val < 256 := b.isLt
    have : bytesToNatBE bs * 256 + b.val < (bytesToNatBE bs + 1) * 256 := by omega
    calc bytesToNatBE bs * 256 + b.val < (bytesToNatBE bs + 1) * 256 := this
      _ ≤ 256 ^ bs.length * 256 := Nat.mul_le_mul_right 256 ih
      _ = 256 ^ (bs.length + 1) := by rw [Nat.pow_succ]

theorem bytesToNatBE_natToBytesBE (len : Nat) :
    ∀ n, n < 256 ^ len → bytesToNatBE (natToBytesBE len n) = n := by
  induction len with
  | zero =>
    intro n hn
    simp only [Nat.pow_zero, Nat.lt_one_iff] at hn
    simp [natToBytesBE, bytesToNatBE, hn]
  | succ l ih =>
    intro n hn
    rw [natToBytesBE, bytesToNatBE_append_singleton]
    have hdiv : n / 256 < 256 ^ l := by
      rw [Nat.div_lt_iff_lt_mul (by omega)]
      calc n < 256 ^ (l + 1) := hn
        _ = 256 ^ l * 256 := by rw [Nat.pow_succ]
    rw [ih (n / 256) hdiv]
    change n / 256 * 256 + n % 256 = n
    omega

theorem natToBytesBE_bytesToNatBE (bs : Bytes) :
    natToBytesBE bs.length (bytesToNatBE bs) = bs := by
  induction bs using List.reverseRecOn with
  | nil => rfl
  | append_singleton bs b ih =>
    rw [bytesToNatBE_append_singleton]
    simp only [List.length_append, List.length_singleton]
    rw [natToBytesBE]
    have hb : b.val < 256 := b.isLt
    have hdiv : (bytesToNatBE bs * 256 + b.val) / 256 = bytesToNatBE bs := by
      omega
    have hmod : (bytesToNatBE bs * 256 + b.val) % 256 = b.val := by
      omega
    rw [hdiv, ih]
    simp [Fin.ext_iff, hmod]

/-- The STARK curve base-field modulus `2^251 + 17·2^192 + 1`, the modulus
of `starknet_ff::FieldElement`. -/
def STARK_PRIME : Nat := 2 ^ 251 + 17 * 2 ^ 192 + 1

instance : NeZero STARK_PRIME := ⟨by decide⟩

/-- Modelled from the spec: a field element of the STARK curve's field
(`starknet_ff::FieldElement`, an external collaborator) — a value in the
finite field, externally represented as a 32-byte big-endian integer. -/
abbrev FieldElement := Fin STARK_PRIME

/-- Modelled from the spec: `FieldElement::to_bytes_be` — the unique
canonical 32-byte big-endian form of a field element. -/
def FieldElement.to_bytes_be (fe : FieldElement) : Bytes :=
  natToBytesBE 32 fe.val

/-- Modelled from the spec: `FieldElement::from_bytes_be` — parse a 32-byte
big-endian buffer as a field element; fails when the value does not fit in
the field (exceeds the field modulus). -/
def FieldElement.from_bytes_be (bs : Bytes) : Except Error FieldElement :=
  if h : bytesToNatBE bs < STARK_PRIME then .ok ⟨bytesToNatBE bs, h⟩
  else .error Error.InvalidSignature

/-- Embeds `tw_hash::H256`: a 32-byte array. `try_from` succeeds exactly when the
slice has length 32 (modelled as returning the 32-byte list itself). -/
def H256.try_from (bs : Bytes) : Option Bytes :=
  if bs.length = 32 then some bs else none

/-- The inner `starknet_crypto::Signature`: an (r, s) pair of field elements. -/
structure StarknetSignature where
  r : FieldElement
  s : FieldElement
deriving DecidableEq

/-- Embeds `starkex::Signature`, wrapping a `starknet_crypto::Signature`. -/
structure Signature where
  signature : StarknetSignature
deriving DecidableEq

/-- Embeds `Signature::LEN`: the number of bytes of a serialized signature. -/
def Signature.LEN : Nat := 64

/-- Embeds `Signature::r()`: the r-coordinate as a 32-byte big-endian array. -/
def Signature.r (sig : Signature) : Bytes :=
  FieldElement.to_bytes_be sig.signature.r

/-- Embeds `Signature::s()`: the s-value as a 32-byte big-endian array. -/
def Signature.s (sig : Signature) : Bytes :=
  FieldElement.to_bytes_be sig.signature.s

/-- Embeds `ToBytesVec::to_vec` for `starkex::Signature`: r bytes then s bytes. -/
def Signature.to_vec (sig : Signature) : Bytes :=
  sig.r ++ sig.s

/-- Embeds `R_RANGE = 0..32`, as a (start, stop) pair. -/
def R_RANGE : Nat × Nat := (0, 32)

/-- Embeds `S_RANGE = 32..64`, as a (start, stop) pair. -/
def S_RANGE : Nat × Nat := (32, 64)

/-- Rust slice indexing `&bytes[start..stop]` (total model: out-of-range
parts are simply absent, which a following length check then detects). -/
def slice (bs : Bytes) (range : Nat × Nat) : Bytes :=
  (bs.drop range.1).take (range.2 - range.1)

/-- Embeds `TryFrom<&[u8]> for starkex::Signature`. `none` models a panic of the
two internal `.expect` calls; `some` is the Rust return value. -/
def Signature.try_from (bs : Bytes) : Option (Except Error Signature) :=
  if bs.length ≠ Signature.LEN then some (.error Error.InvalidSignature)
  else
    match H256.try_from (slice bs R_RANGE), H256.try_from (slice bs S_RANGE) with
    | some r_bytes, some s_bytes =>
        some (match FieldElement.from_bytes_be r_bytes with
          | .error _ => .error Error.InvalidSignature
          | .ok r =>
            match FieldElement.from_bytes_be s_bytes with
            | .error _ => .error Error.InvalidSignature
            | .ok s => .ok ⟨⟨r, s⟩⟩)
    | _, _ => none

/-- The order of the secp256k1 group. -/
def SECP256K1_ORDER : Nat :=
  115792089237316195423570985008687907852837564279074904382605163141518161494337

/-- Modelled from the spec: the secp256k1 backend private key (an external
collaborator), a valid scalar of the curve's scalar field. -/
structure Secp256k1PrivateKey where
  scalar : Nat
deriving DecidableEq

/-- Modelled from the spec: `secp256k1::PrivateKey::try_from(&[u8])` — the
curve's scalar-field parser; accepts a 32-byte big-endian buffer whose value
is a valid nonzero scalar bounded by the curve's order. -/
def secp256k1_privkey_try_from (bs : Bytes) : Except Error Secp256k1PrivateKey :=
  if bs.length = 32 ∧ 0 < bytesToNatBE bs ∧ bytesToNatBE bs < SECP256K1_ORDER
  then .ok ⟨bytesToNatBE bs⟩
  else .error Error.InvalidSecretKey

/-- Modelled from the spec: the STARK-curve backend private key (an external
collaborator), holding its secret scalar as a field element. -/
structure StarkexPrivateKey where
  secret_scalar : FieldElement
deriving DecidableEq

/-- Modelled from the spec: `starkex::PrivateKey::try_from(&[u8])` — the
curve's scalar-field parser; accepts a 32-byte buffer whose big-endian value
parses as a field element (fails when it exceeds the field modulus). -/
def starkex_privkey_try_from (bs : Bytes) : Except Error StarkexPrivateKey :=
  if bs.length = 32 then
    match FieldElement.from_bytes_be bs with
    | .ok fe => .ok ⟨fe⟩
    | .error _ => .error Error.InvalidSecretKey
  else .error Error.InvalidSecretKey

/-- Embeds `TWCurve`: the closed set of supported curves. -/
inductive TWCurve where
  | Secp256k1
  | Starkex
deriving DecidableEq

/-- Modelled from the spec: the secp256k1 backend signer (an external
collaborator, out of scope) — an unspecified deterministic total function
from private key and 32-byte digest to serialized signature bytes. -/
def secp256k1_sign (pk : Secp256k1PrivateKey) (hash : Bytes) : Bytes :=
  natToBytesBE 32 pk.scalar ++ hash ++ [1]

/-- Modelled from the spec: the STARK backend signer (an external
collaborator, out of scope) — an unspecified deterministic total function
from private key and 32-byte digest to a signature value. -/
def starkex_sign (pk : StarkexPrivateKey) (hash : Bytes) : Signature :=
  ⟨⟨⟨bytesToNatBE hash % STARK_PRIME, Nat.mod_lt _ (Nat.pos_of_ne_zero (NeZero.ne STARK_PRIME))⟩,
    pk.secret_scalar⟩⟩

/-- Embeds `TWPrivateKey`: the private-key entity, holding its raw bytes. -/
structure TWPrivateKey where
  bytes : Bytes
deriving DecidableEq

/-- Embeds `TWPrivateKey::SIZE`: the number of bytes in a private key. -/
def TWPrivateKey.SIZE : Nat := 32

/-- Embeds `TWPrivateKey::is_valid_general`: validity without a concrete curve —
length is exactly 32 and the bytes are not all zero. -/
def TWPrivateKey.is_valid_general (bs : Bytes) : Bool :=
  if bs.length ≠ TWPrivateKey.SIZE then false
  else ! bs.all (fun b => b == 0)

/-- Embeds `TWPrivateKey::new`: validates the given bytes and creates a private key. -/
def TWPrivateKey.new (bs : Bytes) : Except Error TWPrivateKey :=
  if ! TWPrivateKey.is_valid_general bs then .error Error.InvalidSecretKey
  else .ok ⟨bs⟩

/-- Embeds `TWPrivateKey::key`: the 32-byte essential key data, `bytes[0..32]`.
`none` models the fatal length assertion and the `H256::try_from` expect. -/
def TWPrivateKey.key (k : TWPrivateKey) : Option Bytes :=
  if TWPrivateKey.SIZE ≤ k.bytes.length then
    H256.try_from (k.bytes.take TWPrivateKey.SIZE)
  else none

/-- Embeds `TWPrivateKey::is_valid`: general validity and a successful parse by
the named curve's private-key parser on `bytes[0..32]`. -/
def TWPrivateKey.is_valid (bs : Bytes) (curve : TWCurve) : Bool :=
  if ! TWPrivateKey.is_valid_general bs then false
  else
    match curve with
    | TWCurve.Secp256k1 =>
        exceptIsOk (secp256k1_privkey_try_from (bs.take TWPrivateKey.SIZE))
    | TWCurve.Starkex =>
        exceptIsOk (starkex_privkey_try_from (bs.take TWPrivateKey.SIZE))

/-- Embeds `TWPrivateKey::to_secp256k1_privkey`: converts `key()` to the
secp256k1 backend key (`none` models a panic inside `key()`). -/
def TWPrivateKey.to_secp256k1_privkey (k : TWPrivateKey) :
    Option (Except Error Secp256k1PrivateKey) :=
  match k.key with
  | none => none
  | some kb => some (secp256k1_privkey_try_from kb)

/-- Embeds `TWPrivateKey::to_starkex_privkey`: converts `key()` to the STARK
backend key (`none` models a panic inside `key()`). -/
def TWPrivateKey.to_starkex_privkey (k : TWPrivateKey) :
    Option (Except Error StarkexPrivateKey) :=
  match k.key with
  | none => none
  | some kb => some (starkex_privkey_try_from kb)

/-- Embeds `TWPrivateKey::sign`: converts self to the selected backend's private
key (propagating its `InvalidSecretKey` failure), converts the digest to the
backend's `SigningHash` (`H256` for both backends, failing with
`InvalidSignMessage`), invokes the backend signer and serializes the result.
`none` models a panic inside `key()`. -/
def TWPrivateKey.sign (k : TWPrivateKey) (hash : Bytes) (curve : TWCurve) :
    Option (Except Error Bytes) :=
  match curve with
  | TWCurve.Secp256k1 =>
      match k.to_secp256k1_privkey with
      | none => none
      | some (.error e) => some (.error e)
      | some (.ok pk) =>
          some (match H256.try_from hash with
            | none => .error Error.InvalidSignMessage
            | some h => .ok (secp256k1_sign pk h))
  | TWCurve.Starkex =>
      match k.to_starkex_privkey with
      | none => none
      | some (.error e) => some (.error e)
      | some (.ok pk) =>
          some (match H256.try_from hash with
            | none => .error Error.InvalidSignMessage
            | some h => .ok (Signature.to_vec (starkex_sign pk h)))

/-- Whether the selected curve's private-key parser accepts a byte buffer. -/
def curve_parse_is_ok (curve : TWCurve) (bs : Bytes) : Bool :=
  match curve with
  | TWCurve.Secp256k1 => exceptIsOk (secp256k1_privkey_try_from bs)
  | TWCurve.Starkex => exceptIsOk (starkex_privkey_try_from bs)

instance {ε α : Type} [DecidableEq ε] [DecidableEq α] : DecidableEq (Except ε α) :=
  fun x y =>
  match x, y with
  | .ok a, .ok b =>
      if h : a = b then .isTrue (congrArg Except.ok h)
      else .isFalse (fun hc => h (Except.ok.inj hc))
  | .ok _, .error _ => .isFalse (fun hc => Except.noConfusion hc)
  | .error _, .ok _ => .isFalse (fun hc => Except.noConfusion hc)
  | .error a, .error b =>
      if h : a = b then .isTrue (congrArg Except.error h)
      else .isFalse (fun hc => h (Except.error.inj hc))

theorem is_valid_general_iff (bs : Bytes) :
    TWPrivateKey.is_valid_general bs = true ↔
      (bs.length = 32 ∧ ∃ x ∈ bs, x ≠ 0) := by
  unfold TWPrivateKey.is_valid_general TWPrivateKey.SIZE
  rcases Decidable.em (bs.length = 32) with hlen | hlen
  · simp [hlen, List.all_eq_false]
  · simp [hlen]

theorem new_ok_elim {bs : Bytes} {k : TWPrivateKey}
    (h : TWPrivateKey.new bs = .ok k) :
    k.bytes = bs ∧ TWPrivateKey.is_valid_general bs = true := by
  unfold TWPrivateKey.new at h
  cases hv : TWPrivateKey.is_valid_general bs with
  | false => rw [hv] at h; simp at h
  | true =>
      rw [hv] at h
      simp at h
      exact ⟨congrArg TWPrivateKey.bytes h.symm, rfl⟩

/-- C1: `TWPrivateKey::new(b)` succeeds exactly when `b` has length 32 and
some byte is nonzero, otherwise it returns `InvalidSecretKey`, and
`is_valid_general` is exactly this acceptance predicate. -/
theorem claim_C1_new_and_general_validity (b : Bytes) :
    ((∃ k, TWPrivateKey.new b = .ok k) ↔ (b.length = 32 ∧ ∃ x ∈ b, x ≠ 0)) ∧
    (TWPrivateKey.new b = .error Error.InvalidSecretKey ↔
      ¬ (b.length = 32 ∧ ∃ x ∈ b, x ≠ 0)) ∧
    (TWPrivateKey.is_valid_general b = true ↔ (b.length = 32 ∧ ∃ x ∈ b, x ≠ 0)) := by
  refine ⟨?_, ?_, is_valid_general_iff b⟩ <;>
  · rw [← is_valid_general_iff b]
    unfold TWPrivateKey.new
    cases h : TWPrivateKey.is_valid_general b <;> simp [h]

/-- C2: every key produced by `TWPrivateKey::new` has a buffer of length at
least 32 whose first 32 bytes are not all zero, and `key()` does not hit its
fatal assertion: it returns exactly the first 32 bytes of the buffer. -/
theorem claim_C2_constructed_key_invariant (b : Bytes) (k : TWPrivateKey)
    (h : TWPrivateKey.new b = .ok k) :
    32 ≤ k.bytes.length ∧ (∃ x ∈ k.bytes.take 32, x ≠ 0) ∧
      k.key = some (k.bytes.take 32) := by
  obtain ⟨hb, hv⟩ := new_ok_elim h
  obtain ⟨hlen, hnz⟩ := (is_valid_general_iff b).mp hv
  subst hb
  have hlen' : k.bytes.length = 32 := hlen
  have htake : k.bytes.take 32 = k.bytes :=
    List.take_of_length_le (le_of_eq hlen')
  refine ⟨le_of_eq hlen'.symm, by rw [htake]; exact hnz, ?_⟩
  unfold TWPrivateKey.key H256.try_from TWPrivateKey.SIZE
  rw [htake, if_pos (le_of_eq hlen'.symm), if_pos hlen']

/-- Witness for C2 at a concrete 32-byte buffer `0^31 ++ [1]`. -/
theorem claim_C2_witness :
    32 ≤ (TWPrivateKey.mk (List.replicate 31 0 ++ [1])).bytes.length ∧
    (∃ x ∈ (TWPrivateKey.mk (List.replicate 31 0 ++ [1])).bytes.take 32, x ≠ 0) ∧
    (TWPrivateKey.mk (List.replicate 31 0 ++ [1])).key =
      some ((TWPrivateKey.mk (List.replicate 31 0 ++ [1])).bytes.take 32) :=
  claim_C2_constructed_key_invariant (List.replicate 31 0 ++ [1]) _ (by decide)

/-- C3: `is_valid(b, c)` holds exactly when general validity holds and the
curve `c`'s private-key parser accepts the first 32 bytes of `b`; a 32-byte
nonzero buffer (all bytes `0xFF`) is still invalid for the Starkex curve. -/
theorem claim_C3_is_valid_dispatch (b : Bytes) (c : TWCurve) :
    (TWPrivateKey.is_valid b c = true ↔
      (TWPrivateKey.is_valid_general b = true ∧
        match c with
        | TWCurve.Secp256k1 =>
            ∃ pk, secp256k1_privkey_try_from (b.take 32) = .ok pk
        | TWCurve.Starkex =>
            ∃ pk, starkex_privkey_try_from (b.take 32) = .ok pk)) ∧
    (TWPrivateKey.is_valid_general (List.replicate 32 255) = true ∧
      TWPrivateKey.is_valid (List.replicate 32 255) TWCurve.Starkex = false) := by
  refine ⟨?_, by decide, by decide⟩
  unfold TWPrivateKey.is_valid TWPrivateKey.SIZE
  cases hg : TWPrivateKey.is_valid_general b with
  | false => simp
  | true =>
      cases c with
      | Secp256k1 =>
          cases hp : secp256k1_privkey_try_from (b.take 32) <;>
            simp [hp, exceptIsOk]
      | Starkex =>
          cases hp : starkex_privkey_try_from (b.take 32) <;>
            simp [hp, exceptIsOk]

theorem length_signature_r (sig : Signature) : (Signature.r sig).length = 32 := by
  unfold Signature.r FieldElement.to_bytes_be
  exact length_natToBytesBE 32 _

theorem length_signature_s (sig : Signature) : (Signature.s sig).length = 32 := by
  unfold Signature.s FieldElement.to_bytes_be
  exact length_natToBytesBE 32 _

theorem to_vec_length (sig : Signature) : (Signature.to_vec sig).length = 64 := by
  unfold Signature.to_vec
  rw [List.length_append, length_signature_r, length_signature_s]

theorem to_vec_take (sig : Signature) :
    (Signature.to_vec sig).take 32 = Signature.r sig := by
  unfold Signature.to_vec
  exact List.take_left' (length_signature_r sig)

theorem to_vec_drop (sig : Signature) :
    (Signature.to_vec sig).drop 32 = Signature.s sig := by
  unfold Signature.to_vec
  exact List.drop_left' (length_signature_r sig)

/-- C4: serializing a STARK signature always yields exactly 64 bytes; the
first 32 are the big-endian encoding of r (equal to the `r()` accessor) and
the last 32 the big-endian encoding of s (equal to the `s()` accessor). -/
theorem claim_C4_serialize_layout (sig : Signature) :
    (Signature.to_vec sig).length = 64 ∧
    (Signature.to_vec sig).take 32 = natToBytesBE 32 sig.signature.r.val ∧
    (Signature.to_vec sig).drop 32 = natToBytesBE 32 sig.signature.s.val ∧
    (Signature.to_vec sig).take 32 = Signature.r sig ∧
    (Signature.to_vec sig).drop 32 = Signature.s sig :=
  ⟨to_vec_length sig, to_vec_take sig, to_vec_drop sig, to_vec_take sig, to_vec_drop sig⟩

theorem try_from_of_length_64 (b : Bytes) (h : b.length = 64) :
    Signature.try_from b =
      some (match FieldElement.from_bytes_be (b.take 32) with
        | .error _ => .error Error.InvalidSignature
        | .ok r =>
          match FieldElement.from_bytes_be ((b.drop 32).take 32) with
          | .error _ => .error Error.InvalidSignature
          | .ok s => .ok ⟨⟨r, s⟩⟩) := by
  unfold Signature.try_from
  have hR : slice b R_RANGE = b.take 32 := by simp [slice, R_RANGE]
  have hS : slice b S_RANGE = (b.drop 32).take 32 := by simp [slice, S_RANGE]
  have hlenR : (b.take 32).length = 32 := by
    simp [List.length_take, h]
  have hlenS : ((b.drop 32).take 32).length = 32 := by
    simp [List.length_take, List.length_drop, h]
  rw [if_neg (by simp [Signature.LEN, h])]
  rw [hR, hS]
  unfold H256.try_from
  rw [if_pos hlenR, if_pos hlenS]

theorem stark_prime_lt_pow : STARK_PRIME < 256 ^ 32 := by decide

theorem from_bytes_to_bytes (fe : FieldElement) :
    FieldElement.from_bytes_be (FieldElement.to_bytes_be fe) = .ok fe := by
  have h : bytesToNatBE (natToBytesBE 32 fe.val) = fe.val :=
    bytesToNatBE_natToBytesBE 32 fe.val (lt_trans fe.isLt stark_prime_lt_pow)
  unfold FieldElement.from_bytes_be FieldElement.to_bytes_be
  rw [h, dif_pos fe.isLt]

theorem to_bytes_of_from_bytes {bs : Bytes} {fe : FieldElement}
    (hlen : bs.length = 32) (h : FieldElement.from_bytes_be bs = .ok fe) :
    FieldElement.to_bytes_be fe = bs := by
  unfold FieldElement.from_bytes_be at h
  rcases Decidable.em (bytesToNatBE bs < STARK_PRIME) with hlt | hlt
  · rw [dif_pos hlt] at h
    have hval : fe.val = bytesToNatBE bs :=
      (congrArg Fin.val (Except.ok.inj h)).symm
    unfold FieldElement.to_bytes_be
    rw [hval, ← hlen]
    exact natToBytesBE_bytesToNatBE bs
  · rw [dif_neg hlt] at h
    exact Except.noConfusion h

/-- C5: `TryFrom<&[u8]>` for the STARK signature fails with
`InvalidSignature` exactly when the input length is not 64 or either 32-byte
half fails to parse as a field element; when both halves parse the result is
`Ok` of exactly that (r, s) pair with no further validation; lengths 63 and
65 are rejected with `InvalidSignature`. -/
theorem claim_C5_parse_validation (b : Bytes) :
    (Signature.try_from b = some (.error Error.InvalidSignature) ↔
      (b.length ≠ 64 ∨
        ¬ (∃ fe, FieldElement.from_bytes_be (b.take 32) = .ok fe) ∨
        ¬ (∃ fe, FieldElement.from_bytes_be ((b.drop 32).take 32) = .ok fe))) ∧
    (∀ r s, b.length = 64 →
        FieldElement.from_bytes_be (b.take 32) = .ok r →
        FieldElement.from_bytes_be ((b.drop 32).take 32) = .ok s →
        Signature.try_from b = some (.ok ⟨⟨r, s⟩⟩)) ∧
    (b.length = 63 ∨ b.length = 65 →
        Signature.try_from b = some (.error Error.InvalidSignature)) := by
  rcases Decidable.em (b.length = 64) with h | h
  · rw [try_from_of_length_64 b h]
    refine ⟨?_, ?_, ?_⟩
    · cases hr : FieldElement.from_bytes_be (b.take 32) with
      | error e => simp [hr, h]
      | ok r =>
          cases hs : FieldElement.from_bytes_be ((b.drop 32).take 32) with
          | error e => simp [hr, hs, h]
          | ok s => simp [hr, hs, h]
    · intro r s _ hr hs
      rw [hr, hs]
    · intro hc
      exfalso
      omega
  · have hfail : Signature.try_from b = some (.error Error.InvalidSignature) := by
      unfold Signature.try_from
      rw [if_pos (by simpa [Signature.LEN] using h)]
    refine ⟨by simp [hfail, h], ?_, fun _ => hfail⟩
    intro r s h64
    exact absurd h64 h

/-- Witness for C5: a 63-byte input is rejected, and the all-zero 64-byte
input parses to the (0, 0) signature. -/
theorem claim_C5_witness :
    Signature.try_from (List.replicate 63 0) = some (.error Error.InvalidSignature) ∧
    Signature.try_from (List.replicate 64 0) =
      some (.ok ⟨⟨⟨0, Nat.pos_of_ne_zero (NeZero.ne STARK_PRIME)⟩,
                  ⟨0, Nat.pos_of_ne_zero (NeZero.ne STARK_PRIME)⟩⟩⟩) :=
  ⟨(claim_C5_parse_validation (List.replicate 63 0)).2.2 (Or.inl (by decide)),
   (claim_C5_parse_validation (List.replicate 64 0)).2.1 _ _ (by decide)
     (by decide) (by decide)⟩

/-- C6: round trip of the STARK signature codec — parsing a serialized
signature returns exactly the original signature, and serializing any
successfully parsed 64-byte input returns exactly the input bytes. -/
theorem claim_C6_roundtrip (sig : Signature) :
    Signature.try_from (Signature.to_vec sig) = some (.ok sig) ∧
    (∀ b s2, Signature.try_from b = some (.ok s2) →
        Signature.to_vec s2 = b) := by
  constructor
  · rw [try_from_of_length_64 _ (to_vec_length sig)]
    have hs_take : (Signature.s sig).take 32 = Signature.s sig :=
      List.take_of_length_le (le_of_eq (length_signature_s sig))
    rw [to_vec_take, to_vec_drop, hs_take]
    have hr : FieldElement.from_bytes_be (Signature.r sig) = .ok sig.signature.r :=
      from_bytes_to_bytes sig.signature.r
    have hs : FieldElement.from_bytes_be (Signature.s sig) = .ok sig.signature.s :=
      from_bytes_to_bytes sig.signature.s
    rw [hr, hs]
  · intro b s2 hp
    rcases Decidable.em (b.length = 64) with h | h
    · rw [try_from_of_length_64 b h] at hp
      cases hr : FieldElement.from_bytes_be (b.take 32) with
      | error e => rw [hr] at hp; simp at hp
      | ok r =>
          cases hs : FieldElement.from_bytes_be ((b.drop 32).take 32) with
          | error e => rw [hr, hs] at hp; simp at hp
          | ok s =>
              rw [hr, hs] at hp
              simp only [Option.some.injEq] at hp
              have hs2 : s2 = ⟨⟨r, s⟩⟩ := (Except.ok.inj hp).symm
              subst hs2
              have hlenR : (b.take 32).length = 32 := by
                simp [List.length_take, h]
              have hlenS : ((b.drop 32).take 32).length = 32 := by
                simp [List.length_take, List.length_drop, h]
              have hdropS : (b.drop 32).take 32 = b.drop 32 :=
                List.take_of_length_le (by simp [List.length_drop, h])
              unfold Signature.to_vec Signature.r Signature.s
              show FieldElement.to_bytes_be r ++ FieldElement.to_bytes_be s = b
              rw [to_bytes_of_from_bytes hlenR hr,
                to_bytes_of_from_bytes hlenS hs, hdropS]
              exact List.take_append_drop 32 b
    · exfalso
      unfold Signature.try_from at hp
      rw [if_pos (by simpa [Signature.LEN] using h)] at hp
      simp at hp

/-- Witness for C6 at the all-zero 64-byte input and its (0, 0) signature. -/
theorem claim_C6_witness :
    Signature.to_vec ⟨⟨⟨0, Nat.pos_of_ne_zero (NeZero.ne STARK_PRIME)⟩,
        ⟨0, Nat.pos_of_ne_zero (NeZero.ne STARK_PRIME)⟩⟩⟩ = List.replicate 64 0 :=
  (claim_C6_roundtrip
      ⟨⟨⟨0, Nat.pos_of_ne_zero (NeZero.ne STARK_PRIME)⟩,
        ⟨0, Nat.pos_of_ne_zero (NeZero.ne STARK_PRIME)⟩⟩⟩).2
    (List.replicate 64 0)
    ⟨⟨⟨0, Nat.pos_of_ne_zero (NeZero.ne STARK_PRIME)⟩,
      ⟨0, Nat.pos_of_ne_zero (NeZero.ne STARK_PRIME)⟩⟩⟩ (by decide)

theorem exceptIsOk_eq_true {α : Type} {r : Except Error α} :
    exceptIsOk r = true ↔ ∃ a, r = .ok a := by
  cases r <;> simp [exceptIsOk]

theorem new_key_eq {bs : Bytes} {k : TWPrivateKey}
    (h : TWPrivateKey.new bs = .ok k) :
    k.bytes = bs ∧ k.bytes.length = 32 ∧ k.key = some (k.bytes.take 32) := by
  obtain ⟨hb, hv⟩ := new_ok_elim h
  obtain ⟨hlen, _⟩ := (is_valid_general_iff bs).mp hv
  subst hb
  refine ⟨rfl, hlen, ?_⟩
  unfold TWPrivateKey.key H256.try_from TWPrivateKey.SIZE
  rw [if_pos (le_of_eq hlen.symm),
    if_pos (by simp [List.length_take, hlen])]

theorem secp256k1_try_from_error {bs : Bytes} {e : Error}
    (h : secp256k1_privkey_try_from bs = .error e) : e = Error.InvalidSecretKey := by
  unfold secp256k1_privkey_try_from at h
  rcases Decidable.em
      (bs.length = 32 ∧ 0 < bytesToNatBE bs ∧ bytesToNatBE bs < SECP256K1_ORDER)
    with hc | hc
  · rw [if_pos hc] at h
    exact Except.noConfusion h
  · rw [if_neg hc] at h
    exact (Except.error.inj h).symm

theorem starkex_try_from_error {bs : Bytes} {e : Error}
    (h : starkex_privkey_try_from bs = .error e) : e = Error.InvalidSecretKey := by
  unfold starkex_privkey_try_from at h
  rcases Decidable.em (bs.length = 32) with hc | hc
  · rw [if_pos hc] at h
    cases hf : FieldElement.from_bytes_be bs with
    | ok fe => rw [hf] at h; exact Except.noConfusion h
    | error e2 => rw [hf] at h; exact (Except.error.inj h).symm
  · rw [if_neg hc] at h
    exact (Except.error.inj h).symm

/-- C7: on a constructed key, `sign` fails with `InvalidSecretKey` when the
backend key conversion fails (whatever the digest is); when the conversion
succeeds but the digest has the wrong shape it fails with
`InvalidSignMessage`; the two error kinds are distinct. -/
theorem claim_C7_sign_error_separation (b : Bytes) (k : TWPrivateKey)
    (hash : Bytes) (c : TWCurve) (hk : TWPrivateKey.new b = .ok k) :
    (curve_parse_is_ok c (k.bytes.take 32) = false →
      k.sign hash c = some (.error Error.InvalidSecretKey)) ∧
    (curve_parse_is_ok c (k.bytes.take 32) = true → hash.length ≠ 32 →
      k.sign hash c = some (.error Error.InvalidSignMessage)) ∧
    Error.InvalidSecretKey ≠ Error.InvalidSignMessage := by
  obtain ⟨-, -, hkey⟩ := new_key_eq hk
  refine ⟨?_, ?_, by decide⟩
  · intro hcp
    cases c with
    | Secp256k1 =>
        cases hp : secp256k1_privkey_try_from (k.bytes.take 32) with
        | ok pk =>
            rw [curve_parse_is_ok, hp] at hcp
            exact absurd hcp (by simp [exceptIsOk])
        | error e =>
            rw [secp256k1_try_from_error hp] at hp
            simp [TWPrivateKey.sign, TWPrivateKey.to_secp256k1_privkey, hkey, hp]
    | Starkex =>
        cases hp : starkex_privkey_try_from (k.bytes.take 32) with
        | ok pk =>
            rw [curve_parse_is_ok, hp] at hcp
            exact absurd hcp (by simp [exceptIsOk])
        | error e =>
            rw [starkex_try_from_error hp] at hp
            simp [TWPrivateKey.sign, TWPrivateKey.to_starkex_privkey, hkey, hp]
  · intro hcp hhash
    have hh : H256.try_from hash = none := by
      unfold H256.try_from
      rw [if_neg hhash]
    cases c with
    | Secp256k1 =>
        rw [curve_parse_is_ok] at hcp
        obtain ⟨pk, hp⟩ := exceptIsOk_eq_true.mp hcp
        simp [TWPrivateKey.sign, TWPrivateKey.to_secp256k1_privkey, hkey, hp, hh]
    | Starkex =>
        rw [curve_parse_is_ok] at hcp
        obtain ⟨pk, hp⟩ := exceptIsOk_eq_true.mp hcp
        simp [TWPrivateKey.sign, TWPrivateKey.to_starkex_privkey, hkey, hp, hh]

/-- Witness for C7: an all-0xFF key (constructible, but out of range for the
STARK field) signs to `InvalidSecretKey` even with an empty digest, while a
valid key with an empty digest signs to `InvalidSignMessage`. -/
theorem claim_C7_witness :
    TWPrivateKey.sign ⟨List.replicate 32 255⟩ [] TWCurve.Starkex =
      some (.error Error.InvalidSecretKey) ∧
    TWPrivateKey.sign ⟨List.replicate 31 0 ++ [1]⟩ [] TWCurve.Starkex =
      some (.error Error.InvalidSignMessage) :=
  ⟨(claim_C7_sign_error_separation (List.replicate 32 255) ⟨List.replicate 32 255⟩
      [] TWCurve.Starkex (by decide)).1 (by decide),
   (claim_C7_sign_error_separation (List.replicate 31 0 ++ [1])
      ⟨List.replicate 31 0 ++ [1]⟩ [] TWCurve.Starkex (by decide)).2.1
      (by decide) (by decide)⟩

/-- C8: a 32-byte, not-all-zero buffer accepted by curve `c`'s scalar parser
is valid for `c`, constructs successfully, and the constructed key signs any
32-byte digest successfully. -/
theorem claim_C8_valid_key_signs (b : Bytes) (c : TWCurve) (digest : Bytes)
    (hlen : b.length = 32) (hnz : ∃ x ∈ b, x ≠ 0)
    (hacc : curve_parse_is_ok c b = true) (hd : digest.length = 32) :
    TWPrivateKey.is_valid b c = true ∧
    TWPrivateKey.new b = .ok ⟨b⟩ ∧
    (∃ out, TWPrivateKey.sign ⟨b⟩ digest c = some (.ok out)) := by
  have hv : TWPrivateKey.is_valid_general b = true :=
    (is_valid_general_iff b).mpr ⟨hlen, hnz⟩
  have htake : b.take 32 = b := List.take_of_length_le (le_of_eq hlen)
  have hkey : TWPrivateKey.key ⟨b⟩ = some b := by
    unfold TWPrivateKey.key H256.try_from TWPrivateKey.SIZE
    rw [if_pos (le_of_eq hlen.symm)]
    show (if (b.take 32).length = 32 then some (b.take 32) else none) = some b
    rw [htake, if_pos hlen]
  have hdig : H256.try_from digest = some digest := by
    unfold H256.try_from
    rw [if_pos hd]
  refine ⟨?_, ?_, ?_⟩
  · unfold TWPrivateKey.is_valid TWPrivateKey.SIZE
    rw [hv]
    cases c with
    | Secp256k1 =>
        rw [curve_parse_is_ok] at hacc
        show (if !true then false else exceptIsOk (secp256k1_privkey_try_from (b.take 32))) = true
        rw [htake]
        simpa using hacc
    | Starkex =>
        rw [curve_parse_is_ok] at hacc
        show (if !true then false else exceptIsOk (starkex_privkey_try_from (b.take 32))) = true
        rw [htake]
        simpa using hacc
  · unfold TWPrivateKey.new
    rw [hv]
    rfl
  · cases c with
    | Secp256k1 =>
        rw [curve_parse_is_ok] at hacc
        obtain ⟨pk, hp⟩ := exceptIsOk_eq_true.mp hacc
        refine ⟨secp256k1_sign pk digest, ?_⟩
        simp [TWPrivateKey.sign, TWPrivateKey.to_secp256k1_privkey, hkey, hp, hdig]
    | Starkex =>
        rw [curve_parse_is_ok] at hacc
        obtain ⟨pk, hp⟩ := exceptIsOk_eq_true.mp hacc
        refine ⟨Signature.to_vec (starkex_sign pk digest), ?_⟩
        simp [TWPrivateKey.sign, TWPrivateKey.to_starkex_privkey, hkey, hp, hdig]

/-- Witness for C8 at the key `0^31 ++ [1]`, curve Starkex, all-zero digest. -/
theorem claim_C8_witness :
    TWPrivateKey.is_valid (List.replicate 31 0 ++ [1]) TWCurve.Starkex = true ∧
    TWPrivateKey.new (List.replicate 31 0 ++ [1]) = .ok ⟨List.replicate 31 0 ++ [1]⟩ ∧
    (∃ out, TWPrivateKey.sign ⟨List.replicate 31 0 ++ [1]⟩ (List.replicate 32 0)
        TWCurve.Starkex = some (.ok out)) :=
  claim_C8_valid_key_signs (List.replicate 31 0 ++ [1]) TWCurve.Starkex
    (List.replicate 32 0) (by decide) (by decide) (by decide) (by decide)

/-- C10: parsing a STARK signature from a byte slice is total and never
aborts — the result is always `some` (no `.expect` panic, since the
length-64 check precedes the two 32-byte slices), and it is either `Ok` of
a signature or `Err(InvalidSignature)`. -/
theorem claim_C10_parse_is_total (b : Bytes) :
    (Signature.try_from b).isSome = true ∧
    ((∃ sig, Signature.try_from b = some (.ok sig)) ∨
      Signature.try_from b = some (.error Error.InvalidSignature)) := by
  have hmain : (∃ sig, Signature.try_from b = some (.ok sig)) ∨
      Signature.try_from b = some (.error Error.InvalidSignature) := by
    rcases Decidable.em (b.length = 64) with h | h
    · rw [try_from_of_length_64 b h]
      cases hr : FieldElement.from_bytes_be (b.take 32) with
      | error e => right; rfl
      | ok r =>
          cases hs : FieldElement.from_bytes_be ((b.drop 32).take 32) with
          | error e => right; rfl
          | ok s => left; exact ⟨⟨⟨r, s⟩⟩, rfl⟩
    · right
      unfold Signature.try_from
      rw [if_pos (by simpa [Signature.LEN] using h)]
  refine ⟨?_, hmain⟩
  rcases hmain with ⟨sig, hs⟩ | hs <;> rw [hs] <;> rfl

end WalletCore
